import Mathlib

/-!
Verification of the K-means clustering component of the VADSTI clustering
module (`Module 3 Data Clustering and Dimensionality Reduction/clustering.py`).

The notebook's only engineered component is the from-scratch K-means engine
requested by Exercise 7 (`MyKmeans`), whose body is left as `pass` in the
source; following the specification it is modelled here with exact rational
arithmetic.  The `plot_elbow` helper (lines 389-400 of the source) is
translated directly; the sklearn `KMeans` library it calls is treated as an
opaque external service, abstracted by a function from `(n_clusters,
random_state)` to the fitted model's inertia.
-/

set_option maxHeartbeats 1000000

/-- Squared Euclidean distance between two numeric vectors:
the sum of squared per-dimension differences. -/
def sqDist (x y : List ℚ) : ℚ :=
  (List.zipWith (fun a b => (a - b) ^ 2) x y).sum

/-- Feature dimensionality of a dataset: the length of its first sample
(`0` for an empty dataset). -/
def dimOf (X : List (List ℚ)) : Nat := (X.headD []).length

/-- Scan of the centroid list keeping the best (index, distance) pair seen so
far; a later centroid replaces the incumbent only on strictly smaller
distance, so ties go to the lowest index. -/
def nearestAux (x : List ℚ) : List (List ℚ) → Nat → Nat × ℚ → Nat × ℚ
  | [], _, best => best
  | c :: cs, i, best =>
      if sqDist x c < best.2 then nearestAux x cs (i + 1) (i, sqDist x c)
      else nearestAux x cs (i + 1) best

/-- Modelled from the spec: the assignment rule of §4.1 step 2 (missing from
the source, where Exercise 7 is `pass`): the index of the centroid at minimum
squared Euclidean distance from `x`, ties broken towards the lowest index. -/
def nearestIdx (cents : List (List ℚ)) (x : List ℚ) : Nat :=
  match cents with
  | [] => 0
  | c :: cs => (nearestAux x cs 1 (0, sqDist x c)).1

/-- Modelled from the spec: the assignment step (§4.1 step 2) over a whole
dataset: each sample is mapped to the index of its nearest centroid. -/
def assignAll (X : List (List ℚ)) (cents : List (List ℚ)) : List Nat :=
  X.map (nearestIdx cents)

/-- The samples currently assigned to cluster `k`, in dataset order. -/
def clusterMembers (X : List (List ℚ)) (l : List Nat) (k : Nat) : List (List ℚ) :=
  (X.zip l).filterMap (fun p => if p.2 = k then some p.1 else none)

/-- Per-dimension arithmetic mean of a list of `D`-dimensional vectors. -/
def meanVec (D : Nat) (ys : List (List ℚ)) : List ℚ :=
  (List.range D).map (fun d => (ys.map (fun y => y.getD d 0)).sum / (ys.length : ℚ))

/-- Modelled from the spec: the update step (§4.1 step 3, missing from the
source): every non-empty cluster's centroid becomes the per-dimension mean of
its members; an empty cluster keeps its previous centroid (§4.1 empty-cluster
policy). -/
def updateCentroids (D : Nat) (X : List (List ℚ)) (cents : List (List ℚ))
    (l : List Nat) : List (List ℚ) :=
  (List.range cents.length).map (fun k =>
    if clusterMembers X l k = [] then cents.getD k []
    else meanVec D (clusterMembers X l k))

/-- Inertia of a state: the sum over all samples of the squared Euclidean
distance from the sample to its assigned centroid. -/
def inertia (X : List (List ℚ)) (cents : List (List ℚ)) (l : List Nat) : ℚ :=
  ((X.zip l).map (fun p => sqDist p.1 (cents.getD p.2 []))).sum

/-- Modelled from the spec: one assignment+update iteration of Lloyd's
algorithm (§4.1 steps 2-3): reassign every sample to its nearest centroid,
then recompute the centroids from that assignment. -/
def lloydStep (D : Nat) (X : List (List ℚ)) (cents : List (List ℚ)) :
    List (List ℚ) × List Nat :=
  (updateCentroids D X cents (assignAll X cents), assignAll X cents)

/-- The sequence of states visited by iterating `lloydStep` from initial
centroids `c0`; `lloydIter D X c0 t` is the (centroids, labels) state after
`t + 1` assignment/update iterations. -/
def lloydIter (D : Nat) (X : List (List ℚ)) (c0 : List (List ℚ)) :
    Nat → List (List ℚ) × List Nat
  | 0 => lloydStep D X c0
  | t + 1 => lloydStep D X (lloydIter D X c0 t).1

/-- Modelled from the spec: the fit loop (§4.1 steps 2-5): iterate
assignment/update until the assignment vector is identical to the previous
iteration's (the recommended convergence criterion) or the iteration budget is
exhausted. -/
def fitLoop (D : Nat) (X : List (List ℚ)) :
    Nat → List (List ℚ) → List Nat → List (List ℚ) × List Nat
  | 0, c, l => (c, l)
  | n + 1, c, l =>
      if (lloydStep D X c).2 = l then (c, l)
      else fitLoop D X n (lloydStep D X c).1 (lloydStep D X c).2

/-- A simple linear congruential pseudo-random step; all randomness of the
engine is drawn from this deterministic generator seeded at construction. -/
def lcg (s : Nat) : Nat := (1103515245 * s + 12345) % 2147483648

/-- Draw `k` distinct elements from `pool` guided by the seeded generator:
each step removes the chosen element from the pool. -/
def pickIndices : Nat → Nat → List Nat → List Nat
  | _, 0, _ => []
  | _, _ + 1, [] => []
  | s, k + 1, p :: ps =>
      ((p :: ps).getD (s % (p :: ps).length) p) ::
        pickIndices (lcg s) k
          ((p :: ps).erase ((p :: ps).getD (s % (p :: ps).length) p))

/-- Modelled from the spec: the initialization policy (§4.1 step 1, missing
from the source): sample `K` distinct data points, chosen by the seeded
generator, as the initial centroids. -/
def initCentroids (seed K : Nat) (X : List (List ℚ)) : List (List ℚ) :=
  (pickIndices seed K (List.range X.length)).map (fun i => X.getD i [])

/-- The engine's error kinds (spec §7). -/
inductive KmeansError : Type
  | InvalidParameter : KmeansError
  | InvalidInput : KmeansError
  | NotFitted : KmeansError
deriving DecidableEq

/-- Modelled from the spec: the K-means engine of Exercise 7 (its body is
`pass` in the source).  Constructed with `n_clusters`, an optional
`max_iterations` bound, an optional convergence `tolerance` and a random
seed (§4.1 construction contract). -/
structure MyKmeans : Type where
  n_clusters : Nat
  max_iterations : Nat := 300
  tolerance : ℚ := 1 / 10000
  seed : Nat := 0
deriving DecidableEq

/-- Terminal fitted state of the engine: final centroids, final assignment
vector and final inertia, queryable after `fit`. -/
structure FitResult : Type where
  centroids : List (List ℚ)
  labels : List Nat
  inertia : ℚ
deriving DecidableEq

instance {ε α : Type} [DecidableEq ε] [DecidableEq α] : DecidableEq (Except ε α) :=
  fun x y =>
    match x, y with
    | .error a, .error b =>
        if h : a = b then isTrue (by rw [h])
        else isFalse (fun hc => h (by cases hc; rfl))
    | .error _, .ok _ => isFalse (fun hc => Except.noConfusion hc)
    | .ok _, .error _ => isFalse (fun hc => Except.noConfusion hc)
    | .ok a, .ok b =>
        if h : a = b then isTrue (by rw [h])
        else isFalse (fun hc => h (by cases hc; rfl))

/-- Modelled from the spec: `MyKmeans.fit` (§4.1; missing from the source).
Validates the construction parameters (`InvalidParameter`) and the dataset
(`InvalidInput`: empty, ragged dimensionality, or fewer samples than `K`,
never silently clamping `K`), then runs Lloyd's algorithm from the seeded
initialization and returns the terminal centroids, labels and inertia. -/
def MyKmeans.fit (m : MyKmeans) (X : List (List ℚ)) : Except KmeansError FitResult :=
  if 0 < m.n_clusters ∧ 0 < m.max_iterations ∧ 0 ≤ m.tolerance then
    if X ≠ [] ∧ (∀ x ∈ X, x.length = dimOf X) ∧ m.n_clusters ≤ X.length then
      Except.ok
        { centroids :=
            (fitLoop (dimOf X) X m.max_iterations (initCentroids m.seed m.n_clusters X) []).1
          labels :=
            (fitLoop (dimOf X) X m.max_iterations (initCentroids m.seed m.n_clusters X) []).2
          inertia :=
            inertia X
              (fitLoop (dimOf X) X m.max_iterations (initCentroids m.seed m.n_clusters X) []).1
              (fitLoop (dimOf X) X m.max_iterations (initCentroids m.seed m.n_clusters X) []).2 }
    else Except.error KmeansError.InvalidInput
  else Except.error KmeansError.InvalidParameter

/-- Modelled from the spec: `MyKmeans.fit_predict` (Exercise 7 / §4.1; missing
from the source): run the same fitting pipeline on the dataset and return the
assignment vector it produced, with no re-randomization between the two
steps. -/
def MyKmeans.fit_predict (m : MyKmeans) (X : List (List ℚ)) : Except KmeansError (List Nat) :=
  if 0 < m.n_clusters ∧ 0 < m.max_iterations ∧ 0 ≤ m.tolerance then
    if X ≠ [] ∧ (∀ x ∈ X, x.length = dimOf X) ∧ m.n_clusters ≤ X.length then
      Except.ok
        (fitLoop (dimOf X) X m.max_iterations (initCentroids m.seed m.n_clusters X) []).2
    else Except.error KmeansError.InvalidInput
  else Except.error KmeansError.InvalidParameter

/-- Modelled from the spec: `MyKmeans.predict` (§4.1; missing from the
source): assign each sample of a (possibly new) dataset to the nearest
centroid of the fitted state, without mutating the centroids; `NotFitted`
when no fitted state exists. -/
def MyKmeans.predict (fitted : Option FitResult) (X : List (List ℚ)) :
    Except KmeansError (List Nat) :=
  match fitted with
  | none => Except.error KmeansError.NotFitted
  | some r => Except.ok (assignAll X r.centroids)

/-- Python's `range(a, b)` as a list. -/
def pyRange (a b : Nat) : List Nat := (List.range (b - a)).map (· + a)

/-- The accumulation loop of `plot_elbow` (clustering.py lines 391-395): for
each `i` it records the fit call `KMeans(n_clusters=i, random_state=768797)`
and appends the fitted model's `inertia_`.  `fitInertia i r` abstracts the
external sklearn service: the inertia of `KMeans(n_clusters=i,
random_state=r).fit(dataset)` for the fixed dataset. -/
def plotElbowLoop (fitInertia : Nat → Nat → ℚ) :
    List Nat → List (Nat × Nat) × List ℚ → List (Nat × Nat) × List ℚ
  | [], acc => acc
  | i :: rest, acc =>
      plotElbowLoop fitInertia rest
        (acc.1 ++ [(i, 768797)], acc.2 ++ [fitInertia i 768797])

/-- `plot_elbow` (clustering.py lines 389-400) up to plotting: the list of
`(n_clusters, random_state)` fit calls it performs, in order, together with
the `inertias` list it collects. -/
def plot_elbow (fitInertia : Nat → Nat → ℚ) (max_clusters : Nat) :
    List (Nat × Nat) × List ℚ :=
  plotElbowLoop fitInertia (pyRange 1 (max_clusters + 1)) ([], [])

/-! ### Basic list helpers -/

lemma getD_range_map {α : Type} (g : Nat → α) (d : α) {n k : Nat} (h : k < n) :
    ((List.range n).map g).getD k d = g k := by
  rw [List.getD_eq_getElem _ _ (by simpa using h)]
  simp

lemma map_getD_range {α : Type} (d : α) (X : List α) :
    (List.range X.length).map (fun i => X.getD i d) = X := by
  induction X with
  | nil => rfl
  | cons x xs ih =>
    simp only [List.length_cons, List.range_succ_eq_map, List.map_cons, List.map_map]
    have h2 : List.map ((fun i => (x :: xs).getD i d) ∘ Nat.succ) (List.range xs.length)
        = List.map (fun i => xs.getD i d) (List.range xs.length) :=
      List.map_congr_left (fun i _ => by simp [List.getD_cons_succ])
    rw [h2, ih]
    rfl

/-! ### Squared-distance lemmas -/

lemma sqDist_nil_right (x : List ℚ) : sqDist x [] = 0 := by
  cases x <;> rfl

lemma sqDist_cons (a b : ℚ) (x y : List ℚ) :
    sqDist (a :: x) (b :: y) = (a - b) ^ 2 + sqDist x y := by
  simp [sqDist]

lemma sqDist_nonneg : ∀ x y : List ℚ, 0 ≤ sqDist x y := by
  intro x
  induction x with
  | nil => intro y; cases y <;> simp [sqDist]
  | cons a x ih =>
    intro y
    cases y with
    | nil => simp [sqDist]
    | cons b y =>
      rw [sqDist_cons]
      have := ih y
      positivity

lemma sqDist_self : ∀ x : List ℚ, sqDist x x = 0 := by
  intro x
  induction x with
  | nil => rfl
  | cons a x ih => rw [sqDist_cons, ih]; ring

lemma sqDist_eq_zero_iff : ∀ x y : List ℚ, x.length = y.length →
    (sqDist x y = 0 ↔ x = y) := by
  intro x
  induction x with
  | nil =>
    intro y hy
    cases y with
    | nil => simp [sqDist]
    | cons b y => simp at hy
  | cons a x ih =>
    intro y hy
    cases y with
    | nil => simp at hy
    | cons b y =>
      rw [sqDist_cons]
      constructor
      · intro h0
        have h1 : (a - b) ^ 2 = 0 ∧ sqDist x y = 0 := by
          constructor
          · nlinarith [sqDist_nonneg x y, sq_nonneg (a - b)]
          · nlinarith [sqDist_nonneg x y, sq_nonneg (a - b)]
        have hab : a = b := by
          have := pow_eq_zero_iff (n := 2) (by norm_num) |>.mp h1.1
          linarith [this]
        have hxy : x = y := (ih y (by simpa using hy)).mp h1.2
        rw [hab, hxy]
      · intro h
        cases h
        rw [sqDist_self]; ring

/-! ### Specification of the nearest-centroid scan -/

lemma nearestAux_spec (x : List ℚ) :
    ∀ (cs : List (List ℚ)) (i bi : Nat) (bd : ℚ),
      ((nearestAux x cs i (bi, bd)).2 ≤ bd
        ∧ ∀ t, t < cs.length → (nearestAux x cs i (bi, bd)).2 ≤ sqDist x (cs.getD t []))
      ∧ (((nearestAux x cs i (bi, bd)).1 = bi ∧ (nearestAux x cs i (bi, bd)).2 = bd)
         ∨ ∃ t, t < cs.length ∧ (nearestAux x cs i (bi, bd)).1 = i + t
             ∧ (nearestAux x cs i (bi, bd)).2 = sqDist x (cs.getD t [])
             ∧ (nearestAux x cs i (bi, bd)).2 < bd
             ∧ ∀ u, u < t → (nearestAux x cs i (bi, bd)).2 < sqDist x (cs.getD u [])) := by
  intro cs
  induction cs with
  | nil =>
    intro i bi bd
    refine ⟨⟨le_refl _, ?_⟩, Or.inl ⟨rfl, rfl⟩⟩
    intro t ht; simp at ht
  | cons c cs ih =>
    intro i bi bd
    by_cases h : sqDist x c < bd
    · have hrec := ih (i + 1) i (sqDist x c)
      simp only [nearestAux, if_pos h]
      obtain ⟨⟨hle, hmin⟩, hcases⟩ := hrec
      refine ⟨⟨le_of_lt (lt_of_le_of_lt hle h), ?_⟩, ?_⟩
      · intro t ht
        cases t with
        | zero => simpa using hle
        | succ u =>
          have hu : u < cs.length := by simpa using ht
          simpa using hmin u hu
      · cases hcases with
        | inl h1 =>
          refine Or.inr ⟨0, by simp, by simpa using h1.1, by simpa using h1.2, ?_, ?_⟩
          · rw [h1.2]; exact h
          · intro u hu; omega
        | inr h2 =>
          obtain ⟨t, ht, hidx, hval, hlt, hleast⟩ := h2
          refine Or.inr ⟨t + 1, by simpa using ht, by omega, by simpa using hval, ?_, ?_⟩
          · exact lt_trans hlt h
          · intro u hu
            cases u with
            | zero => simpa using hlt
            | succ v =>
              have hv : v < t := by omega
              simpa using hleast v hv
    · have hrec := ih (i + 1) bi bd
      simp only [nearestAux, if_neg h]
      obtain ⟨⟨hle, hmin⟩, hcases⟩ := hrec
      have hbd : bd ≤ sqDist x c := le_of_not_lt h
      refine ⟨⟨hle, ?_⟩, ?_⟩
      · intro t ht
        cases t with
        | zero => simpa using le_trans hle hbd
        | succ u =>
          have hu : u < cs.length := by simpa using ht
          simpa using hmin u hu
      · cases hcases with
        | inl h1 => exact Or.inl h1
        | inr h2 =>
          obtain ⟨t, ht, hidx, hval, hlt, hleast⟩ := h2
          refine Or.inr ⟨t + 1, by simpa using ht, by omega, by simpa using hval, hlt, ?_⟩
          intro u hu
          cases u with
          | zero => simpa using lt_of_lt_of_le hlt hbd
          | succ v =>
            have hv : v < t := by omega
            simpa using hleast v hv

lemma nearestIdx_spec (cents : List (List ℚ)) (x : List ℚ) (hc : cents ≠ []) :
    nearestIdx cents x < cents.length
    ∧ (∀ k, k < cents.length →
        sqDist x (cents.getD (nearestIdx cents x) []) ≤ sqDist x (cents.getD k []))
    ∧ (∀ k, k < cents.length →
        sqDist x (cents.getD k []) = sqDist x (cents.getD (nearestIdx cents x) []) →
        nearestIdx cents x ≤ k) := by
  cases cents with
  | nil => exact absurd rfl hc
  | cons c cs =>
    obtain ⟨⟨hle, hmin⟩, hcases⟩ := nearestAux_spec x cs 1 0 (sqDist x c)
    have hval : (nearestAux x cs 1 (0, sqDist x c)).2 =
        sqDist x ((c :: cs).getD (nearestIdx (c :: cs) x) []) := by
      cases hcases with
      | inl h1 =>
        have : nearestIdx (c :: cs) x = 0 := h1.1
        rw [this, h1.2]; simp
      | inr h2 =>
        obtain ⟨t, ht, hidx, hv, _, _⟩ := h2
        have : nearestIdx (c :: cs) x = 1 + t := hidx
        rw [this, hv]
        have h1t : 1 + t = t + 1 := by omega
        rw [h1t]
        simp [List.getD_cons_succ]
    refine ⟨?_, ?_, ?_⟩
    · cases hcases with
      | inl h1 => rw [show nearestIdx (c :: cs) x = 0 from h1.1]; simp
      | inr h2 =>
        obtain ⟨t, ht, hidx, _, _, _⟩ := h2
        rw [show nearestIdx (c :: cs) x = 1 + t from hidx]
        simp only [List.length_cons]; omega
    · intro k hk
      rw [← hval]
      cases k with
      | zero => simpa using hle
      | succ u =>
        have hu : u < cs.length := by simpa using hk
        simpa using hmin u hu
    · intro k hk hkeq
      rw [← hval] at hkeq
      cases hcases with
      | inl h1 => rw [show nearestIdx (c :: cs) x = 0 from h1.1]; omega
      | inr h2 =>
        obtain ⟨t, ht, hidx, hv, hlt, hleast⟩ := h2
        rw [show nearestIdx (c :: cs) x = 1 + t from hidx]
        cases k with
        | zero =>
          exfalso
          have : (nearestAux x cs 1 (0, sqDist x c)).2 = sqDist x c := by
            simpa using hkeq.symm
          rw [this] at hlt
          exact lt_irrefl _ hlt
        | succ u =>
          have hu : u < cs.length := by simpa using hk
          by_contra hcon
          have hut : u < t := by omega
          have := hleast u hut
          have heq : (nearestAux x cs 1 (0, sqDist x c)).2 = sqDist x (cs.getD u []) := by
            simpa [List.getD_cons_succ] using hkeq.symm
          rw [heq] at this
          exact lt_irrefl _ this

/-! ### The mean minimizes the sum of squared distances -/

lemma sum_map_sq_sub (as : List ℚ) (z : ℚ) :
    (as.map (fun a => (a - z) ^ 2)).sum
      = (as.map (fun a => a ^ 2)).sum - 2 * z * as.sum + (as.length : ℚ) * z ^ 2 := by
  induction as with
  | nil => simp
  | cons a as ih =>
    simp only [List.map_cons, List.sum_cons, List.length_cons]
    rw [ih]
    push_cast
    ring

lemma mean_quadratic_min (n S z : ℚ) (hn : 0 < n) :
    n * (S / n) ^ 2 - 2 * (S / n) * S ≤ n * z ^ 2 - 2 * z * S := by
  have hne : n ≠ 0 := ne_of_gt hn
  have h : n * z ^ 2 - 2 * z * S - (n * (S / n) ^ 2 - 2 * (S / n) * S)
      = (n * z - S) ^ 2 / n := by
    field_simp
    ring
  nlinarith [div_nonneg (sq_nonneg (n * z - S)) hn.le]

lemma mean_min_scalar (as : List ℚ) (hne : as ≠ []) (z : ℚ) :
    (as.map (fun a => (a - as.sum / (as.length : ℚ)) ^ 2)).sum
      ≤ (as.map (fun a => (a - z) ^ 2)).sum := by
  have hn : (0 : ℚ) < (as.length : ℚ) := by
    exact_mod_cast List.length_pos.mpr hne
  rw [sum_map_sq_sub, sum_map_sq_sub]
  have := mean_quadratic_min (as.length : ℚ) as.sum z hn
  linarith

lemma getD_tail (y : List ℚ) (d : Nat) : y.getD (d + 1) 0 = y.tail.getD d 0 := by
  cases y <;> simp

lemma meanVec_succ (D : Nat) (ys : List (List ℚ)) :
    meanVec (D + 1) ys
      = ((ys.map (fun y => y.getD 0 0)).sum / (ys.length : ℚ))
        :: meanVec D (ys.map List.tail) := by
  simp only [meanVec, List.range_succ_eq_map, List.map_cons, List.map_map, List.length_map]
  refine congrArg₂ (· :: ·) rfl ?_
  apply List.map_congr_left
  intro d _
  simp only [Function.comp_apply]
  congr 1
  congr 1
  apply List.map_congr_left
  intro y _
  simp only [Function.comp_apply]
  exact getD_tail y d

lemma sum_sqDist_cons_split (a : ℚ) (b : List ℚ) :
    ∀ (ys : List (List ℚ)), (∀ y ∈ ys, y ≠ []) →
    (ys.map (fun y => sqDist y (a :: b))).sum
      = (ys.map (fun y => (y.getD 0 0 - a) ^ 2)).sum
        + ((ys.map List.tail).map (fun t => sqDist t b)).sum := by
  intro ys
  induction ys with
  | nil => simp
  | cons y ys ih =>
    intro h
    have hy : y ≠ [] := h y (by simp)
    match y with
    | [] => exact absurd rfl hy
    | c :: t =>
      simp only [List.map_cons, List.sum_cons]
      rw [sqDist_cons, ih (fun z hz => h z (by simp [hz]))]
      simp only [List.getD_cons_zero, List.tail_cons]
      ring

lemma mean_min_vec : ∀ (D : Nat) (ys : List (List ℚ)) (z : List ℚ),
    ys ≠ [] → (∀ y ∈ ys, y.length = D) → z.length = D →
    (ys.map (fun y => sqDist y (meanVec D ys))).sum
      ≤ (ys.map (fun y => sqDist y z)).sum := by
  intro D
  induction D with
  | zero =>
    intro ys z _ hys hz
    have hz0 : z = [] := List.length_eq_zero.mp hz
    have hm : meanVec 0 ys = [] := rfl
    rw [hz0, hm]
  | succ D ih =>
    intro ys z hne hys hz
    match z with
    | zc :: zt =>
      have hysne : ∀ y ∈ ys, y ≠ [] := by
        intro y hy h0
        have := hys y hy
        rw [h0] at this
        simp at this
      rw [meanVec_succ, sum_sqDist_cons_split _ _ ys hysne,
          sum_sqDist_cons_split _ _ ys hysne]
      apply add_le_add
      · have hmap : ys.map (fun y => y.getD 0 0) ≠ [] := by
          simp [hne]
        have := mean_min_scalar (ys.map (fun y => y.getD 0 0)) hmap zc
        simpa [List.map_map, Function.comp] using this
      · refine ih (ys.map List.tail) zt (by simp [hne]) ?_ (by simpa using hz)
        intro t ht
        obtain ⟨y, hy, rfl⟩ := List.mem_map.mp ht
        have := hys y hy
        have hyne := hysne y hy
        match y with
        | c :: rest => simpa using this

/-! ### Inertia decomposition and one-step monotonicity -/

lemma inertia_cons (x : List ℚ) (X : List (List ℚ)) (c : List (List ℚ))
    (k : Nat) (l : List Nat) :
    inertia (x :: X) c (k :: l) = sqDist x (c.getD k []) + inertia X c l := by
  simp [inertia]

lemma assignAll_cons (x : List ℚ) (X : List (List ℚ)) (c : List (List ℚ)) :
    assignAll (x :: X) c = nearestIdx c x :: assignAll X c := rfl

lemma assignAll_length (X c : List (List ℚ)) : (assignAll X c).length = X.length := by
  simp [assignAll]

lemma assignAll_lt (X c : List (List ℚ)) (hc : c ≠ []) :
    ∀ k ∈ assignAll X c, k < c.length := by
  intro k hk
  obtain ⟨x, _, rfl⟩ := List.mem_map.mp hk
  exact (nearestIdx_spec c x hc).1

lemma inertia_assign_le (c : List (List ℚ)) (hc : c ≠ []) :
    ∀ (X : List (List ℚ)) (l : List Nat), l.length = X.length →
    (∀ k ∈ l, k < c.length) →
    inertia X c (assignAll X c) ≤ inertia X c l := by
  intro X
  induction X with
  | nil =>
    intro l h1 _
    have : l = [] := List.length_eq_zero.mp (by simpa using h1)
    rw [this]
    exact le_refl _
  | cons x X ih =>
    intro l h1 h2
    cases l with
    | nil => simp at h1
    | cons k l =>
      have hstep : sqDist x (c.getD (nearestIdx c x) []) ≤ sqDist x (c.getD k []) :=
        (nearestIdx_spec c x hc).2.1 k (h2 k (by simp))
      have hrest := ih l (by simpa using h1) (fun k' hk' => h2 k' (by simp [hk']))
      rw [assignAll_cons, inertia_cons, inertia_cons]
      exact add_le_add hstep hrest

lemma clusterMembers_cons (x : List ℚ) (X : List (List ℚ)) (k0 : Nat) (l : List Nat)
    (k : Nat) :
    clusterMembers (x :: X) (k0 :: l) k
      = if k0 = k then x :: clusterMembers X l k else clusterMembers X l k := by
  by_cases h : k0 = k <;> simp [clusterMembers, h]

lemma clusterMembers_subset (X : List (List ℚ)) (l : List Nat) (k : Nat) :
    ∀ y ∈ clusterMembers X l k, y ∈ X := by
  intro y hy
  obtain ⟨p, hp, hpy⟩ := List.mem_filterMap.mp hy
  have hmem := List.of_mem_zip hp
  by_cases h : p.2 = k
  · simp [h] at hpy
    rw [← hpy]
    exact hmem.1
  · simp [h] at hpy

lemma getD_mem_of_lt {α : Type} (L : List α) (k : Nat) (d : α) (h : k < L.length) :
    L.getD k d ∈ L := by
  rw [List.getD_eq_getElem _ _ h]
  exact List.getElem_mem h

lemma inertia_eq_sum_clusters (c : List (List ℚ)) :
    ∀ (X : List (List ℚ)) (l : List Nat), l.length = X.length →
    (∀ k ∈ l, k < c.length) →
    inertia X c l
      = ∑ k ∈ Finset.range c.length,
          ((clusterMembers X l k).map (fun y => sqDist y (c.getD k []))).sum := by
  intro X
  induction X with
  | nil =>
    intro l h1 _
    have : l = [] := List.length_eq_zero.mp (by simpa using h1)
    rw [this]
    simp [inertia, clusterMembers]
  | cons x X ih =>
    intro l h1 h2
    cases l with
    | nil => simp at h1
    | cons k0 l =>
      have hk0 : k0 < c.length := h2 k0 (by simp)
      have hsplit : ∀ k,
          ((clusterMembers (x :: X) (k0 :: l) k).map (fun y => sqDist y (c.getD k []))).sum
            = ((clusterMembers X l k).map (fun y => sqDist y (c.getD k []))).sum
              + (if k0 = k then sqDist x (c.getD k []) else 0) := by
        intro k
        rw [clusterMembers_cons]
        by_cases h : k0 = k
        · simp only [if_pos h, List.map_cons, List.sum_cons]
          ring
        · simp [h]
      rw [inertia_cons, ih l (by simpa using h1) (fun k' hk' => h2 k' (by simp [hk'])),
          Finset.sum_congr rfl (fun k _ => hsplit k), Finset.sum_add_distrib,
          Finset.sum_ite_eq, if_pos (Finset.mem_range.mpr hk0)]
      ring

lemma updateCentroids_length (D : Nat) (X c : List (List ℚ)) (l : List Nat) :
    (updateCentroids D X c l).length = c.length := by
  simp [updateCentroids]

lemma meanVec_length (D : Nat) (ys : List (List ℚ)) : (meanVec D ys).length = D := by
  simp [meanVec]

lemma updateCentroids_getD (D : Nat) (X c : List (List ℚ)) (l : List Nat) (k : Nat)
    (hk : k < c.length) :
    (updateCentroids D X c l).getD k []
      = if clusterMembers X l k = [] then c.getD k []
        else meanVec D (clusterMembers X l k) :=
  getD_range_map _ _ hk

lemma updateCentroids_dims (D : Nat) (X c : List (List ℚ)) (l : List Nat)
    (hc : ∀ v ∈ c, v.length = D) :
    ∀ v ∈ updateCentroids D X c l, v.length = D := by
  intro v hv
  obtain ⟨k, hk, rfl⟩ := List.mem_map.mp hv
  have hklt : k < c.length := List.mem_range.mp hk
  by_cases hemp : clusterMembers X l k = []
  · simp only [if_pos hemp]
    exact hc _ (getD_mem_of_lt c k [] hklt)
  · simp only [if_neg hemp]
    exact meanVec_length D _

lemma inertia_update_le (D : Nat) (X c : List (List ℚ)) (l : List Nat)
    (hX : ∀ x ∈ X, x.length = D) (hc : ∀ v ∈ c, v.length = D)
    (hl : ∀ k ∈ l, k < c.length) (hlen : l.length = X.length) :
    inertia X (updateCentroids D X c l) l ≤ inertia X c l := by
  have hulen : (updateCentroids D X c l).length = c.length :=
    updateCentroids_length D X c l
  have hl' : ∀ k ∈ l, k < (updateCentroids D X c l).length := by
    rw [hulen]; exact hl
  rw [inertia_eq_sum_clusters _ X l hlen hl', inertia_eq_sum_clusters _ X l hlen hl, hulen]
  apply Finset.sum_le_sum
  intro k hk
  have hklt : k < c.length := Finset.mem_range.mp hk
  rw [updateCentroids_getD D X c l k hklt]
  by_cases hemp : clusterMembers X l k = []
  · simp [hemp]
  · rw [if_neg hemp]
    refine mean_min_vec D (clusterMembers X l k) (c.getD k []) hemp ?_ ?_
    · intro y hy
      exact hX y (clusterMembers_subset X l k y hy)
    · exact hc _ (getD_mem_of_lt c k [] hklt)

lemma lloydStep_inertia_le (D : Nat) (X c : List (List ℚ)) (l : List Nat)
    (hc : c ≠ []) (hX : ∀ x ∈ X, x.length = D) (hcd : ∀ v ∈ c, v.length = D)
    (hl : ∀ k ∈ l, k < c.length) (hlen : l.length = X.length) :
    inertia X (lloydStep D X c).1 (lloydStep D X c).2 ≤ inertia X c l := by
  have h1 : inertia X (updateCentroids D X c (assignAll X c)) (assignAll X c)
      ≤ inertia X c (assignAll X c) :=
    inertia_update_le D X c (assignAll X c) hX hcd (assignAll_lt X c hc)
      (assignAll_length X c)
  have h2 : inertia X c (assignAll X c) ≤ inertia X c l :=
    inertia_assign_le c hc X l hlen hl
  exact le_trans h1 h2

/-! ### Invariants along the iteration -/

lemma lloydStep_fst_length (D : Nat) (X c : List (List ℚ)) :
    (lloydStep D X c).1.length = c.length :=
  updateCentroids_length D X c (assignAll X c)

lemma lloydIter_inv (D : Nat) (X c0 : List (List ℚ))
    (hc0 : c0 ≠ []) (hc0d : ∀ v ∈ c0, v.length = D) :
    ∀ t, (lloydIter D X c0 t).1.length = c0.length
      ∧ (∀ v ∈ (lloydIter D X c0 t).1, v.length = D)
      ∧ (lloydIter D X c0 t).2.length = X.length
      ∧ (∀ k ∈ (lloydIter D X c0 t).2, k < c0.length) := by
  intro t
  induction t with
  | zero =>
    refine ⟨lloydStep_fst_length D X c0, updateCentroids_dims D X c0 _ hc0d,
      assignAll_length X c0, assignAll_lt X c0 hc0⟩
  | succ t ih =>
    obtain ⟨h1, h2, h3, h4⟩ := ih
    have hne : (lloydIter D X c0 t).1 ≠ [] := by
      intro h0
      rw [h0] at h1
      exact hc0 (List.length_eq_zero.mp h1.symm)
    refine ⟨?_, ?_, ?_, ?_⟩
    · rw [show lloydIter D X c0 (t + 1) = lloydStep D X (lloydIter D X c0 t).1 from rfl,
        lloydStep_fst_length]
      exact h1
    · exact updateCentroids_dims D X _ _ h2
    · exact assignAll_length X _
    · intro k hk
      have := assignAll_lt X (lloydIter D X c0 t).1 hne k hk
      rw [h1] at this
      exact this

lemma fitLoop_inv (D : Nat) (X : List (List ℚ)) (K : Nat) (hK : 0 < K) :
    ∀ (n : Nat) (c : List (List ℚ)) (l : List Nat),
      c.length = K → (∀ v ∈ c, v.length = D) →
      l.length = X.length → (∀ k ∈ l, k < K) →
      (fitLoop D X n c l).1.length = K
      ∧ (∀ v ∈ (fitLoop D X n c l).1, v.length = D)
      ∧ (fitLoop D X n c l).2.length = X.length
      ∧ (∀ k ∈ (fitLoop D X n c l).2, k < K) := by
  intro n
  induction n with
  | zero =>
    intro c l hc hcd hl hlk
    exact ⟨hc, hcd, hl, hlk⟩
  | succ n ih =>
    intro c l hc hcd hl hlk
    by_cases h : (lloydStep D X c).2 = l
    · simp only [fitLoop, if_pos h]
      exact ⟨hc, hcd, hl, hlk⟩
    · simp only [fitLoop, if_neg h]
      have hcn : c ≠ [] := by
        intro h0
        rw [h0] at hc
        simp at hc
        omega
      refine ih (lloydStep D X c).1 (lloydStep D X c).2 ?_ ?_ ?_ ?_
      · rw [lloydStep_fst_length]; exact hc
      · exact updateCentroids_dims D X c _ hcd
      · exact assignAll_length X c
      · intro k hk
        have := assignAll_lt X c hcn k hk
        rw [hc] at this
        exact this

lemma fit_ok_elim (m : MyKmeans) (X : List (List ℚ)) (r : FitResult)
    (h : m.fit X = Except.ok r) :
    (0 < m.n_clusters ∧ 0 < m.max_iterations ∧ 0 ≤ m.tolerance)
    ∧ (X ≠ [] ∧ (∀ x ∈ X, x.length = dimOf X) ∧ m.n_clusters ≤ X.length)
    ∧ r.centroids
        = (fitLoop (dimOf X) X m.max_iterations (initCentroids m.seed m.n_clusters X) []).1
    ∧ r.labels
        = (fitLoop (dimOf X) X m.max_iterations (initCentroids m.seed m.n_clusters X) []).2
    ∧ r.inertia
        = inertia X
            (fitLoop (dimOf X) X m.max_iterations (initCentroids m.seed m.n_clusters X) []).1
            (fitLoop (dimOf X) X m.max_iterations (initCentroids m.seed m.n_clusters X) []).2 := by
  unfold MyKmeans.fit at h
  by_cases hp : 0 < m.n_clusters ∧ 0 < m.max_iterations ∧ 0 ≤ m.tolerance
  · rw [if_pos hp] at h
    by_cases hin : X ≠ [] ∧ (∀ x ∈ X, x.length = dimOf X) ∧ m.n_clusters ≤ X.length
    · rw [if_pos hin] at h
      have hr := Except.ok.inj h
      rw [← hr]
      exact ⟨hp, hin, rfl, rfl, rfl⟩
    · rw [if_neg hin] at h
      simp at h
  · rw [if_neg hp] at h
    simp at h

/-! ### Properties of the seeded initialization -/

lemma pickIndices_mem : ∀ (k s : Nat) (pool : List Nat),
    ∀ i ∈ pickIndices s k pool, i ∈ pool := by
  intro k
  induction k with
  | zero =>
    intro s pool i hi
    simp [pickIndices] at hi
  | succ k ih =>
    intro s pool i hi
    match pool with
    | [] => simp [pickIndices] at hi
    | p :: ps =>
      simp only [pickIndices, List.mem_cons] at hi
      have hx : (p :: ps).getD (s % (p :: ps).length) p ∈ p :: ps :=
        getD_mem_of_lt _ _ _ (Nat.mod_lt _ (by simp))
      cases hi with
      | inl h => rw [h]; exact hx
      | inr h =>
        exact List.mem_of_mem_erase (ih (lcg s) _ i h)

lemma pickIndices_length : ∀ (k s : Nat) (pool : List Nat), k ≤ pool.length →
    (pickIndices s k pool).length = k := by
  intro k
  induction k with
  | zero => intro s pool _; rfl
  | succ k ih =>
    intro s pool hk
    match pool with
    | [] => simp at hk
    | p :: ps =>
      simp only [pickIndices, List.length_cons]
      have hx : (p :: ps).getD (s % (ps.length + 1)) p ∈ p :: ps :=
        getD_mem_of_lt _ _ _ (by simpa using Nat.mod_lt s (by omega : 0 < ps.length + 1))
      rw [ih (lcg s) _ ?_]
      rw [List.length_erase_of_mem hx]
      simp only [List.length_cons]
      simp only [List.length_cons] at hk
      omega

lemma pickIndices_perm : ∀ (k s : Nat) (pool : List Nat), k = pool.length →
    (pickIndices s k pool).Perm pool := by
  intro k
  induction k with
  | zero =>
    intro s pool h
    rw [show pool = [] from (List.length_eq_zero.mp h.symm)]
    exact List.Perm.refl []
  | succ k ih =>
    intro s pool h
    match pool with
    | [] => simp at h
    | p :: ps =>
      simp only [pickIndices]
      have hx : (p :: ps).getD (s % (p :: ps).length) p ∈ p :: ps :=
        getD_mem_of_lt _ _ _ (Nat.mod_lt _ (by simp))
      have hperm : (p :: ps).Perm
          (((p :: ps).getD (s % (p :: ps).length) p)
            :: (p :: ps).erase ((p :: ps).getD (s % (p :: ps).length) p)) :=
        List.perm_cons_erase hx
      have hlen : k = ((p :: ps).erase ((p :: ps).getD (s % (p :: ps).length) p)).length := by
        rw [List.length_erase_of_mem hx]
        simp at h ⊢
        omega
      exact (List.Perm.cons _ (ih (lcg s) _ hlen)).trans hperm.symm

lemma initCentroids_length (seed K : Nat) (X : List (List ℚ)) (hK : K ≤ X.length) :
    (initCentroids seed K X).length = K := by
  simp only [initCentroids, List.length_map]
  exact pickIndices_length K seed _ (by simpa using hK)

lemma initCentroids_mem (seed K : Nat) (X : List (List ℚ)) :
    ∀ v ∈ initCentroids seed K X, v ∈ X := by
  intro v hv
  obtain ⟨i, hi, rfl⟩ := List.mem_map.mp hv
  have : i ∈ List.range X.length := pickIndices_mem K seed _ i hi
  exact getD_mem_of_lt X i [] (List.mem_range.mp this)

lemma initCentroids_perm (seed : Nat) (X : List (List ℚ)) :
    (initCentroids seed X.length X).Perm X := by
  have hp : (pickIndices seed X.length (List.range X.length)).Perm
      (List.range X.length) :=
    pickIndices_perm X.length seed _ (by simp)
  have hm := hp.map (fun i => X.getD i [])
  rw [map_getD_range] at hm
  exact hm

/-! ### Unfolding the fit loop and successful fits -/

lemma fitLoop_start (D : Nat) (X : List (List ℚ)) (hX : X ≠ []) (n : Nat)
    (c : List (List ℚ)) :
    fitLoop D X (n + 1) c [] = fitLoop D X n (lloydStep D X c).1 (lloydStep D X c).2 := by
  have h : (lloydStep D X c).2 ≠ [] := by
    simp only [lloydStep, assignAll, ne_eq, List.map_eq_nil_iff]
    exact hX
  simp only [fitLoop, if_neg h]

lemma fitLoop_fixed (D : Nat) (X : List (List ℚ)) (c : List (List ℚ)) (l : List Nat)
    (hfix : (lloydStep D X c).2 = l) :
    ∀ n, fitLoop D X n c l = (c, l) := by
  intro n
  cases n with
  | zero => rfl
  | succ n => simp only [fitLoop, if_pos hfix]

lemma fit_result_good (m : MyKmeans) (X : List (List ℚ)) (r : FitResult)
    (h : m.fit X = Except.ok r) :
    r.labels.length = X.length
    ∧ (∀ k ∈ r.labels, k < m.n_clusters)
    ∧ r.centroids.length = m.n_clusters
    ∧ (∀ v ∈ r.centroids, v.length = dimOf X) := by
  obtain ⟨⟨hK, hM, _⟩, ⟨hXne, hXd, hKN⟩, hc, hl, _⟩ := fit_ok_elim m X r h
  obtain ⟨M, hMeq⟩ : ∃ M, m.max_iterations = M + 1 := ⟨m.max_iterations - 1, by omega⟩
  have hinit_len : (initCentroids m.seed m.n_clusters X).length = m.n_clusters :=
    initCentroids_length m.seed m.n_clusters X hKN
  have hinit_ne : initCentroids m.seed m.n_clusters X ≠ [] := by
    intro h0
    rw [h0] at hinit_len
    simp at hinit_len
    omega
  have hinit_d : ∀ v ∈ initCentroids m.seed m.n_clusters X, v.length = dimOf X :=
    fun v hv => hXd v (initCentroids_mem m.seed m.n_clusters X v hv)
  rw [hMeq, fitLoop_start (dimOf X) X hXne M] at hc hl
  have hinv := fitLoop_inv (dimOf X) X m.n_clusters hK M
    (lloydStep (dimOf X) X (initCentroids m.seed m.n_clusters X)).1
    (lloydStep (dimOf X) X (initCentroids m.seed m.n_clusters X)).2
    (by rw [lloydStep_fst_length]; exact hinit_len)
    (updateCentroids_dims (dimOf X) X _ _ hinit_d)
    (assignAll_length X _)
    (fun k hk => by
      have := assignAll_lt X _ hinit_ne k hk
      rwa [hinit_len] at this)
  rw [hc, hl]
  exact ⟨hinv.2.2.1, hinv.2.2.2, hinv.1, hinv.2.1⟩

lemma fit_predict_eq_map (m : MyKmeans) (X : List (List ℚ)) :
    m.fit_predict X = Except.map FitResult.labels (m.fit X) := by
  unfold MyKmeans.fit_predict MyKmeans.fit
  by_cases hp : 0 < m.n_clusters ∧ 0 < m.max_iterations ∧ 0 ≤ m.tolerance
  · rw [if_pos hp, if_pos hp]
    by_cases hin : X ≠ [] ∧ (∀ x ∈ X, x.length = dimOf X) ∧ m.n_clusters ≤ X.length
    · rw [if_pos hin, if_pos hin]
      rfl
    · rw [if_neg hin, if_neg hin]
      rfl
  · rw [if_neg hp, if_neg hp]
    rfl

/-! ### The case of pairwise-distinct data with K = N -/

lemma nearestIdx_of_getD_eq (c : List (List ℚ)) (x : List ℚ) (D : Nat)
    (hcd : ∀ v ∈ c, v.length = D) (hx : x.length = D) (hnd : c.Nodup)
    (j : Nat) (hj : j < c.length) (hcj : c.getD j [] = x) :
    nearestIdx c x = j := by
  have hc : c ≠ [] := by
    intro h0
    rw [h0] at hj
    simp at hj
  obtain ⟨hlt, hmin, _⟩ := nearestIdx_spec c x hc
  have hdj : sqDist x (c.getD j []) = 0 := by
    rw [hcj]
    exact sqDist_self x
  have hminv : sqDist x (c.getD (nearestIdx c x) []) = 0 := by
    have h1 := hmin j hj
    rw [hdj] at h1
    exact le_antisymm h1 (sqDist_nonneg _ _)
  have hlen : x.length = (c.getD (nearestIdx c x) []).length := by
    rw [hx, hcd _ (getD_mem_of_lt c _ [] hlt)]
  have hxeq : x = c.getD (nearestIdx c x) [] := (sqDist_eq_zero_iff x _ hlen).mp hminv
  have hsame : c.getD j [] = c.getD (nearestIdx c x) [] := hcj.trans hxeq
  rw [List.getD_eq_getElem c [] hj, List.getD_eq_getElem c [] hlt] at hsame
  exact ((hnd.getElem_inj_iff).mp hsame).symm

lemma clusterMembers_map_self (f : List ℚ → Nat) :
    ∀ (X : List (List ℚ)) (k : Nat),
    clusterMembers X (X.map f) k = X.filter (fun x => decide (f x = k)) := by
  intro X k
  induction X with
  | nil => rfl
  | cons x X ih =>
    rw [List.map_cons, clusterMembers_cons]
    by_cases h : f x = k
    · rw [if_pos h, ih, List.filter_cons_of_pos (by simp [h])]
    · rw [if_neg h, ih, List.filter_cons_of_neg (by simp [h])]

lemma filter_eq_singleton_of_nodup {α : Type} [DecidableEq α] :
    ∀ (L : List α) (a : α), L.Nodup → a ∈ L →
    L.filter (fun x => decide (x = a)) = [a] := by
  intro L a
  induction L with
  | nil =>
    intro _ h
    simp at h
  | cons b L ih =>
    intro hnd ha
    have hbn : b ∉ L := (List.nodup_cons.mp hnd).1
    rcases List.mem_cons.mp ha with h | h
    · rw [← h]
      rw [List.filter_cons_of_pos (by simp)]
      have hnil : L.filter (fun x => decide (x = a)) = [] := by
        apply List.filter_eq_nil_iff.mpr
        intro x hx
        simp only [decide_eq_true_eq]
        intro hxa
        rw [hxa, h] at hx
        exact hbn hx
      rw [hnil]
    · by_cases hba : b = a
      · exact absurd (hba ▸ h) hbn
      · rw [List.filter_cons_of_neg (by simp [hba])]
        exact ih (List.nodup_cons.mp hnd).2 h

lemma meanVec_singleton (D : Nat) (y : List ℚ) (hy : y.length = D) :
    meanVec D [y] = y := by
  have h1 : meanVec D [y] = (List.range D).map (fun d => y.getD d 0) := by
    simp only [meanVec]
    apply List.map_congr_left
    intro d _
    simp
  rw [h1, ← hy]
  exact map_getD_range 0 y

lemma inertia_self_zero (c : List (List ℚ)) :
    ∀ X : List (List ℚ), (∀ x ∈ X, c.getD (nearestIdx c x) [] = x) →
    inertia X c (assignAll X c) = 0 := by
  intro X
  induction X with
  | nil => intro _; rfl
  | cons x X ih =>
    intro h
    rw [assignAll_cons, inertia_cons, h x (by simp), sqDist_self,
      ih (fun z hz => h z (by simp [hz]))]
    ring

lemma fit_K_eq_N_core (m : MyKmeans) (X : List (List ℚ))
    (hKN : m.n_clusters = X.length) (hM : 0 < m.max_iterations) (ht : 0 ≤ m.tolerance)
    (hXne : X ≠ []) (hXd : ∀ x ∈ X, x.length = dimOf X) (hnd : X.Nodup) :
    m.fit X = Except.ok
      { centroids := initCentroids m.seed m.n_clusters X
        labels := assignAll X (initCentroids m.seed m.n_clusters X)
        inertia := 0 }
    ∧ (assignAll X (initCentroids m.seed m.n_clusters X)).Nodup
    ∧ (∀ k, k < m.n_clusters →
        clusterMembers X (assignAll X (initCentroids m.seed m.n_clusters X)) k
          = [(initCentroids m.seed m.n_clusters X).getD k []]) := by
  have hK : 0 < m.n_clusters := by
    rw [hKN]
    exact List.length_pos.mpr hXne
  set c0 : List (List ℚ) := initCentroids m.seed m.n_clusters X with hc0
  have hperm : c0.Perm X := by
    rw [hc0, hKN]
    exact initCentroids_perm m.seed X
  have hc0len : c0.length = X.length := hperm.length_eq
  have hc0K : c0.length = m.n_clusters := by rw [hc0len, hKN]
  have hc0nd : c0.Nodup := hperm.nodup_iff.mpr hnd
  have hc0ne : c0 ≠ [] := by
    intro h0
    rw [h0] at hc0len
    exact hXne (List.length_eq_zero.mp hc0len.symm)
  have hc0d : ∀ v ∈ c0, v.length = dimOf X := by
    intro v hv
    exact hXd v (hperm.mem_iff.mp hv)
  have hpoint : ∀ x ∈ X, c0.getD (nearestIdx c0 x) [] = x := by
    intro x hx
    have hxmem : x ∈ c0 := hperm.mem_iff.mpr hx
    obtain ⟨j, hj, hgj⟩ := List.mem_iff_getElem.mp hxmem
    have hgd : c0.getD j [] = x := by
      rw [List.getD_eq_getElem _ [] hj]
      exact hgj
    have hidx := nearestIdx_of_getD_eq c0 x (dimOf X) hc0d (hXd x hx) hc0nd j hj hgd
    rw [hidx]
    exact hgd
  have hlnd : (assignAll X c0).Nodup := by
    apply List.Nodup.map_on ?_ hnd
    intro a ha b hb hfab
    have h1 := hpoint a ha
    have h2 := hpoint b hb
    rw [hfab] at h1
    exact (h1.symm.trans h2).symm.symm
  have hmem : ∀ k, k < m.n_clusters →
      clusterMembers X (assignAll X c0) k = [c0.getD k []] := by
    intro k hk
    have hklen : k < c0.length := by
      rw [hc0K]
      exact hk
    rw [show assignAll X c0 = X.map (nearestIdx c0) from rfl, clusterMembers_map_self]
    have hfilter : X.filter (fun x => decide (nearestIdx c0 x = k))
        = X.filter (fun x => decide (x = c0.getD k [])) := by
      apply List.filter_congr
      intro x hx
      simp only [decide_eq_decide]
      constructor
      · intro hfk
        have hp := hpoint x hx
        rw [hfk] at hp
        exact hp.symm
      · intro hxk
        exact nearestIdx_of_getD_eq c0 x (dimOf X) hc0d (hXd x hx) hc0nd k hklen hxk.symm
    rw [hfilter]
    exact filter_eq_singleton_of_nodup X _ hnd
      (hperm.mem_iff.mp (getD_mem_of_lt _ k [] hklen))
  have hupdate : updateCentroids (dimOf X) X c0 (assignAll X c0) = c0 := by
    have h1 : ∀ k ∈ List.range c0.length,
        (if clusterMembers X (assignAll X c0) k = [] then c0.getD k []
          else meanVec (dimOf X) (clusterMembers X (assignAll X c0) k)) = c0.getD k [] := by
      intro k hk
      have hklt : k < c0.length := List.mem_range.mp hk
      have hkK : k < m.n_clusters := by
        rw [← hc0K]
        exact hklt
      rw [hmem k hkK, if_neg (by simp)]
      exact meanVec_singleton (dimOf X) _ (hc0d _ (getD_mem_of_lt _ _ _ hklt))
    calc updateCentroids (dimOf X) X c0 (assignAll X c0)
        = (List.range c0.length).map (fun k => c0.getD k []) := List.map_congr_left h1
      _ = c0 := by
          have := map_getD_range ([] : List ℚ) c0
          rw [hc0len] at this ⊢
          exact this
  have hloop : fitLoop (dimOf X) X m.max_iterations c0 [] = (c0, assignAll X c0) := by
    obtain ⟨M, hMeq⟩ : ∃ M, m.max_iterations = M + 1 := ⟨m.max_iterations - 1, by omega⟩
    rw [hMeq, fitLoop_start (dimOf X) X hXne M]
    have hstep1 : (lloydStep (dimOf X) X c0).1 = c0 := hupdate
    rw [show (lloydStep (dimOf X) X c0).1 = c0 from hstep1]
    exact fitLoop_fixed (dimOf X) X c0 _ rfl M
  have hin : inertia X c0 (assignAll X c0) = 0 := inertia_self_zero c0 X hpoint
  refine ⟨?_, hlnd, hmem⟩
  unfold MyKmeans.fit
  rw [if_pos ⟨hK, hM, ht⟩, if_pos ⟨hXne, hXd, le_of_eq hKN⟩, ← hc0, hloop]
  simp only []
  rw [hin]

/-! ### Behaviour of the plot_elbow loop -/

lemma plotElbowLoop_spec (f : Nat → Nat → ℚ) :
    ∀ (L : List Nat) (a : List (Nat × Nat)) (b : List ℚ),
    plotElbowLoop f L (a, b)
      = (a ++ L.map (fun i => (i, 768797)), b ++ L.map (fun i => f i 768797)) := by
  intro L
  induction L with
  | nil =>
    intro a b
    simp [plotElbowLoop]
  | cons i L ih =>
    intro a b
    rw [show plotElbowLoop f (i :: L) (a, b)
        = plotElbowLoop f L (a ++ [(i, 768797)], b ++ [f i 768797]) from rfl, ih]
    simp

lemma pyRange_one (M : Nat) : pyRange 1 (M + 1) = (List.range M).map (fun j => j + 1) := by
  simp [pyRange]

/-! ### The claims -/

/-- Claim C1: for every dataset accepted by `fit`, the returned assignment
vector has length equal to the number of samples and every entry lies in
`[0, K)`; `fit_predict` returns that same vector, and `predict` on the fitted
state returns, for any dataset, an assignment vector of matching length with
all entries in `[0, K)`. -/
theorem fit_labels_inRange (m : MyKmeans) (X : List (List ℚ)) (r : FitResult)
    (h : m.fit X = Except.ok r) :
    r.labels.length = X.length
    ∧ (∀ k ∈ r.labels, k < m.n_clusters)
    ∧ m.fit_predict X = Except.ok r.labels
    ∧ (∀ Xnew : List (List ℚ),
        MyKmeans.predict (some r) Xnew = Except.ok (assignAll Xnew r.centroids)
        ∧ (assignAll Xnew r.centroids).length = Xnew.length
        ∧ (∀ k ∈ assignAll Xnew r.centroids, k < m.n_clusters)) := by
  obtain ⟨h1, h2, h3, _⟩ := fit_result_good m X r h
  refine ⟨h1, h2, ?_, ?_⟩
  · rw [fit_predict_eq_map, h]
    rfl
  · intro Xnew
    have hK := (fit_ok_elim m X r h).1.1
    have hcne : r.centroids ≠ [] := by
      intro h0
      rw [h0] at h3
      simp at h3
      omega
    refine ⟨rfl, assignAll_length Xnew r.centroids, ?_⟩
    intro k hk
    have := assignAll_lt Xnew r.centroids hcne k hk
    rwa [h3] at this

/-- Witness for C1 at the engine `K = 1`, one max iteration, seed 0 on the
one-sample dataset `[[0]]`. -/
theorem fit_labels_inRange_witness :
    (MyKmeans.mk 1 1 0 0).fit [[(0 : ℚ)]] = Except.ok (FitResult.mk [[0]] [0] 0)
    ∧ (FitResult.mk [[(0 : ℚ)]] [0] 0).labels.length = [[(0 : ℚ)]].length
    ∧ (∀ k ∈ (FitResult.mk [[(0 : ℚ)]] [0] 0).labels, k < (MyKmeans.mk 1 1 0 0).n_clusters)
    ∧ (MyKmeans.mk 1 1 0 0).fit_predict [[(0 : ℚ)]] = Except.ok [0] := by
  have hfit : (MyKmeans.mk 1 1 0 0).fit [[(0 : ℚ)]]
      = Except.ok (FitResult.mk [[0]] [0] 0) := by
    norm_num [MyKmeans.fit, dimOf, initCentroids, pickIndices, lcg, fitLoop, lloydStep,
      assignAll, nearestIdx, nearestAux, updateCentroids, clusterMembers, meanVec, inertia,
      sqDist, List.range_succ, List.filterMap_cons, List.filterMap_nil, List.cons_ne_nil]
  have hmain := fit_labels_inRange (MyKmeans.mk 1 1 0 0) [[(0 : ℚ)]]
    (FitResult.mk [[0]] [0] 0) hfit
  exact ⟨hfit, hmain.1, hmain.2.1, hmain.2.2.1⟩

/-- Claim C2: a successful fit ends with exactly `K` centroids, each of the
dataset's dimensionality; the initialization produces exactly `K` such
centroids and the update step preserves both the count and the
dimensionality, so the centroid set is `K` by `D` at every point of the
run. -/
theorem centroids_K_by_D (m : MyKmeans) (X : List (List ℚ)) (r : FitResult)
    (h : m.fit X = Except.ok r) :
    r.centroids.length = m.n_clusters
    ∧ (∀ v ∈ r.centroids, v.length = dimOf X)
    ∧ (initCentroids m.seed m.n_clusters X).length = m.n_clusters
    ∧ (∀ v ∈ initCentroids m.seed m.n_clusters X, v.length = dimOf X)
    ∧ (∀ (c : List (List ℚ)) (l : List Nat), c.length = m.n_clusters →
        (updateCentroids (dimOf X) X c l).length = m.n_clusters)
    ∧ (∀ (c : List (List ℚ)) (l : List Nat), (∀ v ∈ c, v.length = dimOf X) →
        ∀ v ∈ updateCentroids (dimOf X) X c l, v.length = dimOf X) := by
  obtain ⟨_, _, h3, h4⟩ := fit_result_good m X r h
  obtain ⟨_, ⟨_, hXd, hKN⟩, _, _, _⟩ := fit_ok_elim m X r h
  refine ⟨h3, h4, initCentroids_length _ _ _ hKN,
    fun v hv => hXd v (initCentroids_mem _ _ _ v hv), ?_, ?_⟩
  · intro c l hc
    rw [updateCentroids_length]
    exact hc
  · intro c l hcd
    exact updateCentroids_dims _ _ _ _ hcd

/-- Witness for C2: one cluster on a two-sample one-dimensional dataset. -/
theorem centroids_K_by_D_witness :
    (MyKmeans.mk 1 2 0 0).fit [[(0 : ℚ)], [2]]
      = Except.ok (FitResult.mk [[1]] [0, 0] 2)
    ∧ (FitResult.mk [[(1 : ℚ)]] [0, 0] 2).centroids.length
        = (MyKmeans.mk 1 2 0 0).n_clusters
    ∧ (∀ v ∈ (FitResult.mk [[(1 : ℚ)]] [0, 0] 2).centroids,
        v.length = dimOf [[(0 : ℚ)], [2]]) := by
  have hfit : (MyKmeans.mk 1 2 0 0).fit [[(0 : ℚ)], [2]]
      = Except.ok (FitResult.mk [[1]] [0, 0] 2) := by
    norm_num [MyKmeans.fit, dimOf, initCentroids, pickIndices, lcg, fitLoop, lloydStep,
      assignAll, nearestIdx, nearestAux, updateCentroids, clusterMembers, meanVec, inertia,
      sqDist, List.range_succ, List.filterMap_cons, List.filterMap_nil, List.cons_ne_nil]
  have hmain := centroids_K_by_D (MyKmeans.mk 1 2 0 0) [[(0 : ℚ)], [2]]
    (FitResult.mk [[1]] [0, 0] 2) hfit
  exact ⟨hfit, hmain.1, hmain.2.1⟩

/-- Claim C3: along the iteration of the assignment/update step used by the
fit loop, the inertia after any iteration is at most the inertia after the
previous iteration (Lloyd monotonicity), for any dataset of consistent
dimensionality and any non-empty initial centroid set of that
dimensionality. -/
theorem inertia_monotone (D : Nat) (X c0 : List (List ℚ)) (t : Nat)
    (hX : ∀ x ∈ X, x.length = D) (hc0 : c0 ≠ []) (hc0d : ∀ v ∈ c0, v.length = D) :
    inertia X (lloydIter D X c0 (t + 1)).1 (lloydIter D X c0 (t + 1)).2
      ≤ inertia X (lloydIter D X c0 t).1 (lloydIter D X c0 t).2 := by
  obtain ⟨h1, h2, h3, h4⟩ := lloydIter_inv D X c0 hc0 hc0d t
  have hne : (lloydIter D X c0 t).1 ≠ [] := by
    intro h0
    rw [h0] at h1
    exact hc0 (List.length_eq_zero.mp h1.symm)
  rw [show lloydIter D X c0 (t + 1) = lloydStep D X (lloydIter D X c0 t).1 from rfl]
  refine lloydStep_inertia_le D X _ _ hne hX h2 ?_ h3
  intro k hk
  have := h4 k hk
  rwa [← h1] at this

/-- Witness for C3 on the dataset `[[0], [1]]` with a single initial
centroid, at the first iteration. -/
theorem inertia_monotone_witness :
    (∀ x ∈ ([[(0 : ℚ)], [1]] : List (List ℚ)), x.length = 1)
    ∧ ([[(0 : ℚ)]] : List (List ℚ)) ≠ []
    ∧ inertia [[(0 : ℚ)], [1]] (lloydIter 1 [[(0 : ℚ)], [1]] [[0]] 1).1
        (lloydIter 1 [[(0 : ℚ)], [1]] [[0]] 1).2
      ≤ inertia [[(0 : ℚ)], [1]] (lloydIter 1 [[(0 : ℚ)], [1]] [[0]] 0).1
        (lloydIter 1 [[(0 : ℚ)], [1]] [[0]] 0).2 := by
  have h := inertia_monotone 1 [[(0 : ℚ)], [1]] [[0]] 0 (by decide) (by decide) (by decide)
  exact ⟨by decide, by decide, h⟩

/-- Claim C4: `fit_predict` is exactly `fit` followed by projecting out the
assignment vector of the fitted state: as a function of the engine (hence the
seed) and the dataset it is the `labels` image of `fit`, with no
re-randomization in between. -/
theorem fit_predict_refines_fit (m : MyKmeans) (X : List (List ℚ)) :
    m.fit_predict X = Except.map FitResult.labels (m.fit X) :=
  fit_predict_eq_map m X

/-- Claim C5: the assignment rule sends every sample to a centroid of minimum
squared Euclidean distance, and among equidistant minimizers it picks the
lowest index; the assignment step applies this rule to every sample. -/
theorem assign_argmin_tiebreak (cents : List (List ℚ)) (x : List ℚ)
    (hc : cents ≠ []) :
    nearestIdx cents x < cents.length
    ∧ (∀ k, k < cents.length →
        sqDist x (cents.getD (nearestIdx cents x) []) ≤ sqDist x (cents.getD k []))
    ∧ (∀ k, k < cents.length →
        sqDist x (cents.getD k []) = sqDist x (cents.getD (nearestIdx cents x) []) →
        nearestIdx cents x ≤ k)
    ∧ (∀ X : List (List ℚ), assignAll X cents = X.map (nearestIdx cents)) := by
  obtain ⟨h1, h2, h3⟩ := nearestIdx_spec cents x hc
  exact ⟨h1, h2, h3, fun X => rfl⟩

/-- Witness for C5: two exactly equidistant (identical) centroids; the sample
is assigned to index 0. -/
theorem assign_argmin_tiebreak_witness :
    ([[(1 : ℚ)], [1]] : List (List ℚ)) ≠ []
    ∧ nearestIdx [[(1 : ℚ)], [1]] [1] < ([[(1 : ℚ)], [1]] : List (List ℚ)).length
    ∧ nearestIdx [[(1 : ℚ)], [1]] [1] = 0 := by
  have h := assign_argmin_tiebreak [[(1 : ℚ)], [1]] [1] (by decide)
  refine ⟨by decide, h.1, ?_⟩
  norm_num [nearestIdx, nearestAux, sqDist]

/-- Claim C6: with valid construction parameters, `fit` fails with
`InvalidInput` whenever the dataset is empty, has inconsistent per-sample
dimensionality, or has fewer samples than `K`; in particular `K` is never
silently clamped down to `N`. -/
theorem fit_invalid_input_error (m : MyKmeans) (X : List (List ℚ))
    (hp : 0 < m.n_clusters) (hm : 0 < m.max_iterations) (ht : 0 ≤ m.tolerance)
    (hbad : X = [] ∨ (∃ x ∈ X, x.length ≠ dimOf X) ∨ X.length < m.n_clusters) :
    m.fit X = Except.error KmeansError.InvalidInput := by
  unfold MyKmeans.fit
  rw [if_pos ⟨hp, hm, ht⟩, if_neg]
  rintro ⟨h1, h2, h3⟩
  rcases hbad with h | h | h
  · exact h1 h
  · obtain ⟨x, hx, hne⟩ := h
    exact hne (h2 x hx)
  · omega

/-- Witness for C6: `K = 2` on a one-sample dataset is rejected, not
clamped. -/
theorem fit_invalid_input_error_witness :
    0 < (MyKmeans.mk 2 10 0 0).n_clusters
    ∧ ([[(0 : ℚ)]] : List (List ℚ)).length < (MyKmeans.mk 2 10 0 0).n_clusters
    ∧ (MyKmeans.mk 2 10 0 0).fit [[(0 : ℚ)]] = Except.error KmeansError.InvalidInput := by
  have h := fit_invalid_input_error (MyKmeans.mk 2 10 0 0) [[(0 : ℚ)]]
    (by decide) (by decide) (by decide) (Or.inr (Or.inr (by decide)))
  exact ⟨by decide, by decide, h⟩

/-- Claim C7: two fits on identical input by engines carrying the same
parameters and the same seed produce identical results (centroids, labels and
inertia), and likewise for `fit_predict`: all randomness comes from the
seeded generator owned by the engine. -/
theorem fit_deterministic_same_seed (m1 m2 : MyKmeans) (X : List (List ℚ))
    (h1 : m1.n_clusters = m2.n_clusters) (h2 : m1.max_iterations = m2.max_iterations)
    (h3 : m1.tolerance = m2.tolerance) (h4 : m1.seed = m2.seed) :
    m1.fit X = m2.fit X ∧ m1.fit_predict X = m2.fit_predict X := by
  have heq : m1 = m2 := by
    cases m1
    cases m2
    simp_all
  rw [heq]
  exact ⟨rfl, rfl⟩

/-- Witness for C7 with two syntactically separate but equal engines. -/
theorem fit_deterministic_same_seed_witness :
    (MyKmeans.mk 2 5 0 3).fit [[(0 : ℚ)], [1]] = (MyKmeans.mk 2 5 0 3).fit [[(0 : ℚ)], [1]]
    ∧ (MyKmeans.mk 2 5 0 3).fit_predict [[(0 : ℚ)], [1]]
        = (MyKmeans.mk 2 5 0 3).fit_predict [[(0 : ℚ)], [1]] :=
  fit_deterministic_same_seed (MyKmeans.mk 2 5 0 3) (MyKmeans.mk 2 5 0 3)
    [[(0 : ℚ)], [1]] (by decide) (by decide) (by decide) (by decide)

/-- Claim C8 counterexample: on the dataset `[[0], [0]]` (two identical
samples) with `K = N = 2`, the fit succeeds with assignment vector `[0, 0]`:
cluster 0 holds both samples and cluster 1 is empty, so it is not the case
that every sample is its own singleton cluster, contrary to the claim's
universal statement over datasets. -/
theorem fit_K_eq_N_cex :
    (MyKmeans.mk 2 10 0 0).fit [[(0 : ℚ)], [0]]
      = Except.ok (FitResult.mk [[0], [0]] [0, 0] 0)
    ∧ (clusterMembers [[(0 : ℚ)], [0]] [0, 0] 0).length = 2
    ∧ (clusterMembers [[(0 : ℚ)], [0]] [0, 0] 1).length = 0 := by
  refine ⟨?_, by decide, by decide⟩
  norm_num [MyKmeans.fit, dimOf, initCentroids, pickIndices, lcg, fitLoop, lloydStep,
    assignAll, nearestIdx, nearestAux, updateCentroids, clusterMembers, meanVec, inertia,
    sqDist, List.range_succ, List.filterMap_cons, List.filterMap_nil, List.cons_ne_nil]

/-- Claim C8 (amended): when `K` equals the number of samples and the samples
are pairwise distinct, fitting yields each sample as its own singleton
cluster (the assignment vector is duplicate-free, covers `[0, K)` and every
cluster has exactly one member) and the final inertia is `0`. -/
theorem fit_K_eq_N_distinct_singletons (m : MyKmeans) (X : List (List ℚ))
    (hKN : m.n_clusters = X.length) (hM : 0 < m.max_iterations) (ht : 0 ≤ m.tolerance)
    (hXne : X ≠ []) (hXd : ∀ x ∈ X, x.length = dimOf X) (hnd : X.Nodup) :
    ∃ r : FitResult, m.fit X = Except.ok r
      ∧ r.labels.Nodup
      ∧ r.labels.length = X.length
      ∧ (∀ k ∈ r.labels, k < m.n_clusters)
      ∧ (∀ k, k < m.n_clusters → (clusterMembers X r.labels k).length = 1)
      ∧ r.inertia = 0 := by
  obtain ⟨hfit, hlnd, hmem⟩ := fit_K_eq_N_core m X hKN hM ht hXne hXd hnd
  obtain ⟨g1, g2, _, _⟩ := fit_result_good m X _ hfit
  refine ⟨_, hfit, hlnd, g1, g2, ?_, rfl⟩
  intro k hk
  have := hmem k hk
  rw [show (FitResult.mk (initCentroids m.seed m.n_clusters X)
      (assignAll X (initCentroids m.seed m.n_clusters X)) 0).labels
      = assignAll X (initCentroids m.seed m.n_clusters X) from rfl, this]
  rfl

/-- Witness for the amended C8 on the two distinct samples `[[0], [1]]` with
`K = 2`. -/
theorem fit_K_eq_N_distinct_singletons_witness :
    (MyKmeans.mk 2 1 0 0).n_clusters = ([[(0 : ℚ)], [1]] : List (List ℚ)).length
    ∧ ([[(0 : ℚ)], [1]] : List (List ℚ)).Nodup
    ∧ (∃ r : FitResult, (MyKmeans.mk 2 1 0 0).fit [[(0 : ℚ)], [1]] = Except.ok r
        ∧ r.labels.Nodup
        ∧ r.labels.length = ([[(0 : ℚ)], [1]] : List (List ℚ)).length
        ∧ (∀ k ∈ r.labels, k < (MyKmeans.mk 2 1 0 0).n_clusters)
        ∧ (∀ k, k < (MyKmeans.mk 2 1 0 0).n_clusters →
            (clusterMembers [[(0 : ℚ)], [1]] r.labels k).length = 1)
        ∧ r.inertia = 0) := by
  have h := fit_K_eq_N_distinct_singletons (MyKmeans.mk 2 1 0 0) [[(0 : ℚ)], [1]]
    (by decide) (by decide) (by decide) (by decide) (by decide) (by decide)
  exact ⟨by decide, by decide, h⟩

/-- Claim C9: in the update step, a cluster with no assigned samples keeps
its previous centroid exactly (and this is not an error), while a non-empty
cluster's centroid becomes the per-dimension arithmetic mean of its assigned
samples. -/
theorem update_empty_cluster_frame (D : Nat) (X c : List (List ℚ)) (l : List Nat)
    (k : Nat) (hk : k < c.length) :
    (clusterMembers X l k = [] →
      (updateCentroids D X c l).getD k [] = c.getD k [])
    ∧ (clusterMembers X l k ≠ [] →
      (updateCentroids D X c l).getD k [] = meanVec D (clusterMembers X l k))
    ∧ (∀ d, d < D →
        (meanVec D (clusterMembers X l k)).getD d 0
          = ((clusterMembers X l k).map (fun y => y.getD d 0)).sum
            / ((clusterMembers X l k).length : ℚ)) := by
  refine ⟨?_, ?_, ?_⟩
  · intro hemp
    rw [updateCentroids_getD D X c l k hk, if_pos hemp]
  · intro hne
    rw [updateCentroids_getD D X c l k hk, if_neg hne]
  · intro d hd
    exact getD_range_map _ _ hd

/-- Witness for C9: with labels `[0, 0]`, cluster 1 is empty and keeps its
previous centroid `[7]`; cluster 0 moves to the mean `[1]`. -/
theorem update_empty_cluster_frame_witness :
    (1 : Nat) < ([[(5 : ℚ)], [7]] : List (List ℚ)).length
    ∧ clusterMembers [[(0 : ℚ)], [2]] [0, 0] 1 = []
    ∧ (updateCentroids 1 [[(0 : ℚ)], [2]] [[5], [7]] [0, 0]).getD 1 [] = [7]
    ∧ (updateCentroids 1 [[(0 : ℚ)], [2]] [[5], [7]] [0, 0]).getD 0 [] = [1] := by
  have h := update_empty_cluster_frame 1 [[(0 : ℚ)], [2]] [[5], [7]] [0, 0] 1 (by decide)
  refine ⟨by decide, by decide, ?_, ?_⟩
  · rw [h.1 (by decide)]
    decide
  · norm_num [updateCentroids, clusterMembers, meanVec, List.range_succ,
      List.filterMap_cons, List.filterMap_nil, List.cons_ne_nil]

/-- Claim C10: `plot_elbow` performs exactly `max_clusters` fits, with
`n_clusters` running from 1 through `max_clusters` in increasing order and
`random_state` fixed at 768797 for every fit, and collects the inertias into
a list of length `max_clusters` whose entry at position `j` is the inertia of
the fit with `n_clusters = j + 1`. -/
theorem plot_elbow_fits_and_inertias (fitInertia : Nat → Nat → ℚ) (M : Nat)
    (hM : 1 ≤ M) :
    (plot_elbow fitInertia M).1 = (List.range M).map (fun j => (j + 1, 768797))
    ∧ (plot_elbow fitInertia M).2.length = M
    ∧ (∀ j, j < M →
        (plot_elbow fitInertia M).2.getD j 0 = fitInertia (j + 1) 768797) := by
  have h := plotElbowLoop_spec fitInertia (pyRange 1 (M + 1)) [] []
  rw [show plot_elbow fitInertia M = plotElbowLoop fitInertia (pyRange 1 (M + 1)) ([], [])
      from rfl, h, pyRange_one]
  refine ⟨?_, ?_, ?_⟩
  · simp [List.map_map, Function.comp]
  · simp
  · intro j hj
    have hcomp : (List.nil ++ ((List.range M).map (fun j => j + 1)).map
        (fun i => fitInertia i 768797))
        = (List.range M).map (fun j => fitInertia (j + 1) 768797) := by
      simp [List.map_map, Function.comp]
    rw [hcomp]
    exact getD_range_map _ _ hj

/-- Witness for C10 at `max_clusters = 2` with a concrete inertia oracle. -/
theorem plot_elbow_fits_and_inertias_witness :
    (1 : Nat) ≤ 2
    ∧ (plot_elbow (fun i r => (i : ℚ) + r) 2).1 = [(1, 768797), (2, 768797)]
    ∧ (plot_elbow (fun i r => (i : ℚ) + r) 2).2.length = 2
    ∧ (plot_elbow (fun i r => (i : ℚ) + r) 2).2.getD 0 0 = 768798 := by
  have h := plot_elbow_fits_and_inertias (fun i r => (i : ℚ) + r) 2 (by decide)
  refine ⟨by decide, by decide, h.2.1, ?_⟩
  rw [h.2.2 0 (by decide)]
  norm_num
